import Mathlib

/-! Layout of `struct event` (bootstrap.h).

`bootstrap.h` declares two capacity constants and one packed record,
`struct event`, shared between a kernel probe and a userspace reader.
This development embeds the declaration (member list, member types,
the `packed` attribute), computes the layout it induces, and studies the
byte image of a record under that layout.
-/

namespace Bootstrap

/-! ## The declaration -/

/-- Capacity of `comm`: `#define TASK_COMM_LEN 16`. -/
def TASK_COMM_LEN : Nat := 16

/-- Capacity of `filename`: `#define MAX_FILENAME_LEN 127`. -/
def MAX_FILENAME_LEN : Nat := 127

/-- The member types that occur in `struct event`. -/
inductive CType where
  | u32
  | u64
  | char_array (n : Nat)
  | bool
  deriving DecidableEq, Repr

/-- Modelled from the spec: the typedefs `u32`, `u64` and `bool` live in
`vmlinux/x86/vmlinux.h`, which is not among the sources. Their widths are
the ones of the spec's field table: 4 bytes, 8 bytes, 1 byte; a `char`
array of `n` elements takes `n` bytes. -/
def CType.size : CType → Nat
  | .u32 => 4
  | .u64 => 8
  | .char_array n => n
  | .bool => 1

/-- Natural alignment of a member type, in the words of claim C8: `u32`
aligned to 4, `u64` aligned to 8, `char` and `bool` to 1. This is the rule
the member list would follow without the `packed` attribute; the declared
struct does not use it. -/
def CType.align : CType → Nat
  | .u32 => 4
  | .u64 => 8
  | .char_array _ => 1
  | .bool => 1

/-- Alignment of every member under `__attribute__((packed))`: one byte. -/
def packed_align : CType → Nat := fun _ => 1

/-- The members of `struct event`, by name. -/
inductive Field where
  | pid
  | ppid
  | exit_code
  | duration_ns
  | comm
  | filename
  | exit_event
  deriving DecidableEq, Repr

/-- One member declaration: its name and its type. -/
structure Member where
  name : Field
  type : CType
  deriving DecidableEq, Repr

/-- The member list of `struct event`, in declaration order. -/
def event_members : List Member :=
  [ ⟨.pid, .u32⟩,
    ⟨.ppid, .u32⟩,
    ⟨.exit_code, .u32⟩,
    ⟨.duration_ns, .u64⟩,
    ⟨.comm, .char_array TASK_COMM_LEN⟩,
    ⟨.filename, .char_array MAX_FILENAME_LEN⟩,
    ⟨.exit_event, .bool⟩ ]

/-! ## Layout -/

/-- Round `pos` up to the next multiple of `a`. -/
def align_up (pos a : Nat) : Nat := (pos + a - 1) / a * a

/-- A placed member: name, byte offset, width in bytes. -/
structure Slot where
  name : Field
  offset : Nat
  size : Nat
  deriving DecidableEq, Repr

/-- Place the members one after another starting at `pos`, each at the
next offset that satisfies its alignment `al`. -/
def layout_from (al : CType → Nat) : Nat → List Member → List Slot
  | _, [] => []
  | pos, m :: ms =>
    let off := align_up pos (al m.type)
    ⟨m.name, off, m.type.size⟩ :: layout_from al (off + m.type.size) ms

/-- The first byte offset after the last placed member. -/
def layout_end (al : CType → Nat) : Nat → List Member → Nat
  | pos, [] => pos
  | pos, m :: ms => layout_end al (align_up pos (al m.type) + m.type.size) ms

/-- Alignment of the struct: the largest alignment among its members. -/
def struct_align (al : CType → Nat) (ms : List Member) : Nat :=
  (ms.map (fun m => al m.type)).foldl max 1

/-- Size of the struct: the end of the last member, rounded up to the
struct's alignment. -/
def struct_size (al : CType → Nat) (ms : List Member) : Nat :=
  align_up (layout_end al 0 ms) (struct_align al ms)

/-- Sum of the declared member widths. -/
def width_sum (ms : List Member) : Nat := (ms.map (fun m => m.type.size)).sum

/-- Number of bytes of the struct that belong to no member. -/
def padding_bytes (al : CType → Nat) (ms : List Member) : Nat :=
  struct_size al ms - width_sum ms

/-- Layout of `struct event` as declared, with the `packed` attribute. -/
def event_layout : List Slot := layout_from packed_align 0 event_members

/-- The value of `sizeof(struct event)` as declared. -/
def sizeof_event : Nat := struct_size packed_align event_members

/-- Layout the same member list would have without `packed`. -/
def natural_layout : List Slot := layout_from CType.align 0 event_members

/-- Size the same member list would have without `packed`. -/
def natural_sizeof_event : Nat := struct_size CType.align event_members

/-- Offset of a member in a layout. -/
def offset_in (l : List Slot) (f : Field) : Option Nat :=
  (l.find? (fun s => s.name = f)).map Slot.offset

/-- Width of a member in a layout. -/
def size_in (l : List Slot) (f : Field) : Option Nat :=
  (l.find? (fun s => s.name = f)).map Slot.size

/-- The value of `offsetof(struct event, f)`. -/
def offsetof (f : Field) : Nat := (offset_in event_layout f).getD 0

/-- Width of member `f` of `struct event`. -/
def field_size (f : Field) : Nat := (size_in event_layout f).getD 0

/-- Declared type of a member. -/
def field_type (f : Field) : Option CType :=
  (event_members.find? (fun m => m.name = f)).map Member.type

/-- Byte `i` of the struct lies inside slot `s`. -/
def Slot.covers (s : Slot) (i : Nat) : Bool :=
  decide (s.offset ≤ i) && decide (i < s.offset + s.size)

/-! ## Record values and their byte image -/

/-- A value of `struct event`. Integers are natural numbers, the two
character arrays are lists of byte values; `event.valid` states the ranges
the C types impose. -/
structure event where
  pid : Nat
  ppid : Nat
  exit_code : Nat
  duration_ns : Nat
  comm : List Nat
  filename : List Nat
  exit_event : Bool
  deriving DecidableEq, Repr

/-- The ranges the member types impose on a record value. -/
def event.valid (e : event) : Prop :=
  e.pid < 2 ^ 32 ∧ e.ppid < 2 ^ 32 ∧ e.exit_code < 2 ^ 32 ∧
  e.duration_ns < 2 ^ 64 ∧
  e.comm.length = TASK_COMM_LEN ∧ (∀ b ∈ e.comm, b < 256) ∧
  e.filename.length = MAX_FILENAME_LEN ∧ (∀ b ∈ e.filename, b < 256)

instance (e : event) : Decidable e.valid :=
  inferInstanceAs (Decidable (e.pid < 2 ^ 32 ∧ e.ppid < 2 ^ 32 ∧ e.exit_code < 2 ^ 32 ∧
    e.duration_ns < 2 ^ 64 ∧
    e.comm.length = TASK_COMM_LEN ∧ (∀ b ∈ e.comm, b < 256) ∧
    e.filename.length = MAX_FILENAME_LEN ∧ (∀ b ∈ e.filename, b < 256)))

/-- The `w` low-order bytes of `v`, least significant first. -/
def le_bytes : Nat → Nat → List Nat
  | 0, _ => []
  | w + 1, v => v % 256 :: le_bytes w (v / 256)

/-- The unsigned value of a little-endian byte sequence. -/
def le_value : List Nat → Nat
  | [] => 0
  | b :: bs => b + 256 * le_value bs

/-- The byte that stores a `bool`. -/
def bool_byte (b : Bool) : Nat := if b then 1 else 0

/-- Modelled from the spec: the code that stores a record (the kernel
probe) is not among the sources. The bytes of one member are its object
representation: unsigned integers in `size` bytes, least significant byte
first (the header targets x86), character arrays byte for byte, `bool` as
one byte. -/
def field_bytes (e : event) (m : Member) : List Nat :=
  match m.name with
  | .pid => le_bytes m.type.size e.pid
  | .ppid => le_bytes m.type.size e.ppid
  | .exit_code => le_bytes m.type.size e.exit_code
  | .duration_ns => le_bytes m.type.size e.duration_ns
  | .comm => e.comm
  | .filename => e.filename
  | .exit_event => [bool_byte e.exit_event]

/-- Modelled from the spec: the serializer is not among the sources. The
image places each member's bytes at the offset the layout gives it and
fills the gap before it, if any, with zero bytes. -/
def image_from (al : CType → Nat) (e : event) : Nat → List Member → List Nat
  | _, [] => []
  | pos, m :: ms =>
    let off := align_up pos (al m.type)
    List.replicate (off - pos) 0 ++ field_bytes e m
      ++ image_from al e (off + m.type.size) ms

/-- Modelled from the spec: the serializer is not among the sources. The
encoding of a record is its byte image under the declared (packed) layout,
followed by the tail padding of the struct, if any. -/
def encode (e : event) : List Nat :=
  image_from packed_align e 0 event_members
    ++ List.replicate (sizeof_event - layout_end packed_align 0 event_members) 0

/-- The bytes of a buffer from offset `off`, `n` of them. -/
def slice (bytes : List Nat) (off n : Nat) : List Nat := (bytes.drop off).take n

/-- The bytes of member `f` in a buffer holding a `struct event`. -/
def field_slice (bytes : List Nat) (f : Field) : List Nat :=
  slice bytes (offsetof f) (field_size f)

/-- Modelled from the spec: the reader of the record (the userspace
consumer) is not among the sources. Each member is read at its offset:
integers as unsigned little-endian values, character arrays as the raw
bytes of the whole buffer, the `bool` as true when its byte is not zero. -/
def decode (bytes : List Nat) : event :=
  { pid := le_value (field_slice bytes .pid)
    ppid := le_value (field_slice bytes .ppid)
    exit_code := le_value (field_slice bytes .exit_code)
    duration_ns := le_value (field_slice bytes .duration_ns)
    comm := field_slice bytes .comm
    filename := field_slice bytes .filename
    exit_event := decide (le_value (field_slice bytes .exit_event) ≠ 0) }

/-- Modelled from the spec: the producer's string copy is not among the
sources. Storing a name in a buffer of capacity `cap` keeps at most
`cap - 1` characters and fills the rest of the buffer with NUL bytes
("truncated, NUL-terminated (or NUL-padded)", "15 usable characters plus
terminator"). -/
def store_str (cap : Nat) (name : List Nat) : List Nat :=
  let kept := name.take (cap - 1)
  kept ++ List.replicate (cap - kept.length) 0

/-- The characters a reader sees in a buffer: the bytes before the first
NUL. -/
def c_string (buf : List Nat) : List Nat := buf.takeWhile (fun b => b ≠ 0)

/-- Example scenario 2 of the spec, the exit event of `bash`. -/
def exit_example : event :=
  { pid := 1234, ppid := 1, exit_code := 0, duration_ns := 2500000000
    comm := [98, 97, 115, 104] ++ List.replicate 12 0
    filename := List.replicate 127 0
    exit_event := true }

/-- Every slot of a layout starts where the previous one ended, the first
one at `pos`. -/
def contiguous_from : Nat → List Slot → Bool
  | _, [] => true
  | pos, s :: ss => decide (s.offset = pos) && contiguous_from (s.offset + s.size) ss

/-- A record whose 32-bit and 64-bit members have their top bit set, whose
`comm` holds sixteen letters and no NUL, and whose `filename` is full. -/
def top_bit_example : event :=
  { pid := 4294967295, ppid := 0, exit_code := 2147483648
    duration_ns := 18446744073709551615
    comm := List.replicate 16 65
    filename := List.replicate 127 47
    exit_event := false }

/-- A command name of twenty characters, `abcdefghijklmnopqrst`. -/
def long_name : List Nat :=
  [97, 98, 99, 100, 101, 102, 103, 104, 105, 106, 107, 108, 109, 110, 111, 112, 113, 114,
   115, 116]

set_option maxRecDepth 8192

/-! ## Auxiliary lemmas -/

theorem event_layout_eq : event_layout =
    [⟨.pid, 0, 4⟩, ⟨.ppid, 4, 4⟩, ⟨.exit_code, 8, 4⟩, ⟨.duration_ns, 12, 8⟩,
     ⟨.comm, 20, 16⟩, ⟨.filename, 36, 127⟩, ⟨.exit_event, 163, 1⟩] := by
  decide

theorem le_bytes_length (w v : Nat) : (le_bytes w v).length = w := by
  induction w generalizing v with
  | zero => rfl
  | succ w ih => simp [le_bytes, ih]

theorem le_value_le_bytes (w v : Nat) : le_value (le_bytes w v) = v % 256 ^ w := by
  induction w generalizing v with
  | zero => simp [le_bytes, le_value, Nat.mod_one]
  | succ w ih =>
    simp only [le_bytes, le_value, ih]
    rw [pow_succ, Nat.mul_comm (256 ^ w) 256, Nat.mod_mul]

theorem le_value_le_bytes_of_lt (w v : Nat) (h : v < 256 ^ w) :
    le_value (le_bytes w v) = v := by
  rw [le_value_le_bytes, Nat.mod_eq_of_lt h]

theorem encode_eq (e : event) : encode e =
    le_bytes 4 e.pid ++ (le_bytes 4 e.ppid ++ (le_bytes 4 e.exit_code ++
      (le_bytes 8 e.duration_ns ++ (e.comm ++ (e.filename ++ [bool_byte e.exit_event]))))) := by
  simp [encode, image_from, event_members, packed_align, align_up, field_bytes, CType.size,
    sizeof_event, struct_size, layout_end, struct_align]

theorem slice_at (a b c : List Nat) (off n : Nat) (ha : a.length = off) (hb : b.length = n) :
    slice (a ++ (b ++ c)) off n = b := by
  subst ha hb
  simp [slice]

theorem offsetof_values :
    offsetof .pid = 0 ∧ offsetof .ppid = 4 ∧ offsetof .exit_code = 8 ∧
    offsetof .duration_ns = 12 ∧ offsetof .comm = 20 ∧ offsetof .filename = 36 ∧
    offsetof .exit_event = 163 := by
  decide

theorem field_size_values :
    field_size .pid = 4 ∧ field_size .ppid = 4 ∧ field_size .exit_code = 4 ∧
    field_size .duration_ns = 8 ∧ field_size .comm = 16 ∧ field_size .filename = 127 ∧
    field_size .exit_event = 1 := by
  decide

theorem slice_pid (e : event) : field_slice (encode e) .pid = le_bytes 4 e.pid := by
  have h := slice_at [] (le_bytes 4 e.pid)
    (le_bytes 4 e.ppid ++ (le_bytes 4 e.exit_code ++ (le_bytes 8 e.duration_ns ++
      (e.comm ++ (e.filename ++ [bool_byte e.exit_event]))))) 0 4 rfl (le_bytes_length _ _)
  simpa [field_slice, offsetof_values, field_size_values, encode_eq] using h

theorem slice_ppid (e : event) : field_slice (encode e) .ppid = le_bytes 4 e.ppid := by
  have h := slice_at (le_bytes 4 e.pid) (le_bytes 4 e.ppid)
    (le_bytes 4 e.exit_code ++ (le_bytes 8 e.duration_ns ++
      (e.comm ++ (e.filename ++ [bool_byte e.exit_event])))) 4 4
    (le_bytes_length _ _) (le_bytes_length _ _)
  simpa [field_slice, offsetof_values, field_size_values, encode_eq] using h

theorem slice_exit_code (e : event) :
    field_slice (encode e) .exit_code = le_bytes 4 e.exit_code := by
  have h := slice_at (le_bytes 4 e.pid ++ le_bytes 4 e.ppid) (le_bytes 4 e.exit_code)
    (le_bytes 8 e.duration_ns ++ (e.comm ++ (e.filename ++ [bool_byte e.exit_event]))) 8 4
    (by simp [le_bytes_length]) (le_bytes_length _ _)
  simpa [field_slice, offsetof_values, field_size_values, encode_eq] using h

theorem slice_duration_ns (e : event) :
    field_slice (encode e) .duration_ns = le_bytes 8 e.duration_ns := by
  have h := slice_at (le_bytes 4 e.pid ++ (le_bytes 4 e.ppid ++ le_bytes 4 e.exit_code))
    (le_bytes 8 e.duration_ns) (e.comm ++ (e.filename ++ [bool_byte e.exit_event])) 12 8
    (by simp [le_bytes_length]) (le_bytes_length _ _)
  simpa [field_slice, offsetof_values, field_size_values, encode_eq] using h

theorem slice_comm (e : event) (hc : e.comm.length = 16) :
    field_slice (encode e) .comm = e.comm := by
  have h := slice_at
    (le_bytes 4 e.pid ++ (le_bytes 4 e.ppid ++ (le_bytes 4 e.exit_code ++
      le_bytes 8 e.duration_ns)))
    e.comm (e.filename ++ [bool_byte e.exit_event]) 20 16
    (by simp [le_bytes_length]) hc
  simpa [field_slice, offsetof_values, field_size_values, encode_eq] using h

theorem slice_filename (e : event) (hc : e.comm.length = 16) (hf : e.filename.length = 127) :
    field_slice (encode e) .filename = e.filename := by
  have h := slice_at
    (le_bytes 4 e.pid ++ (le_bytes 4 e.ppid ++ (le_bytes 4 e.exit_code ++
      (le_bytes 8 e.duration_ns ++ e.comm))))
    e.filename [bool_byte e.exit_event] 36 127
    (by simp [le_bytes_length, hc]) hf
  simpa [field_slice, offsetof_values, field_size_values, encode_eq] using h

theorem slice_exit_event (e : event) (hc : e.comm.length = 16)
    (hf : e.filename.length = 127) :
    field_slice (encode e) .exit_event = [bool_byte e.exit_event] := by
  have h := slice_at
    (le_bytes 4 e.pid ++ (le_bytes 4 e.ppid ++ (le_bytes 4 e.exit_code ++
      (le_bytes 8 e.duration_ns ++ (e.comm ++ e.filename)))))
    [bool_byte e.exit_event] [] 163 1
    (by simp [le_bytes_length, hc, hf]) rfl
  simpa [field_slice, offsetof_values, field_size_values, encode_eq] using h

theorem encode_length (e : event) (hc : e.comm.length = 16) (hf : e.filename.length = 127) :
    (encode e).length = 164 := by
  simp [encode_eq, le_bytes_length, hc, hf]

theorem bool_byte_read (b : Bool) : decide (le_value [bool_byte b] ≠ 0) = b := by
  cases b <;> simp [bool_byte, le_value]

theorem decode_encode_valid (e : event) (hv : e.valid) : decode (encode e) = e := by
  obtain ⟨h1, h2, h3, h4, h5, _, h7, _⟩ := hv
  have hc : e.comm.length = 16 := h5
  have hf : e.filename.length = 127 := h7
  cases e
  simp only [decode, slice_pid, slice_ppid, slice_exit_code, slice_duration_ns,
    slice_comm _ hc, slice_filename _ hc hf, slice_exit_event _ hc hf, bool_byte_read]
  simp only [event.mk.injEq, and_true, true_and]
  exact ⟨le_value_le_bytes_of_lt 4 _ (by simpa using h1),
    le_value_le_bytes_of_lt 4 _ (by simpa using h2),
    le_value_le_bytes_of_lt 4 _ (by simpa using h3),
    le_value_le_bytes_of_lt 8 _ (by simpa using h4)⟩


theorem encode_split (e : event) : encode e =
    (le_bytes 4 e.pid ++ (le_bytes 4 e.ppid ++ (le_bytes 4 e.exit_code ++
      (le_bytes 8 e.duration_ns ++ (e.comm ++ e.filename))))) ++ [bool_byte e.exit_event] := by
  simp [encode_eq]

theorem take_len_append (a c : List Nat) (n : Nat) (h : a.length = n) :
    (a ++ c).take n = a := by
  subst h
  simp

theorem drop_len_append (a c : List Nat) (n : Nat) (h : a.length = n) :
    (a ++ c).drop n = c := by
  subst h
  simp

theorem c_string_append_nul (l r : List Nat) (h : ∀ c ∈ l, c ≠ 0) :
    c_string (l ++ 0 :: r) = l := by
  induction l with
  | nil => simp [c_string]
  | cons x xs ih =>
    have hx : x ≠ 0 := h x (List.mem_cons_self x xs)
    have hxs : ∀ c ∈ xs, c ≠ 0 := fun c hc => h c (List.mem_cons_of_mem x hc)
    have ih2 := ih hxs
    simp only [c_string] at ih2 ⊢
    simp [List.takeWhile, hx]
    simpa using ih2

theorem store_str_long (name : List Nat) (h : 15 ≤ name.length) :
    store_str TASK_COMM_LEN name = name.take 15 ++ [0] := by
  have hl : (name.take 15).length = 15 := by simp [List.length_take, h]
  simp only [store_str, TASK_COMM_LEN]
  rw [show 16 - 1 = 15 from rfl, hl]
  rfl

/-! ## The layout contract -/

/-- Claim C1: the packed `struct event` occupies exactly 164 bytes, the sum
of its declared member widths 4 + 4 + 4 + 8 + 16 + 127 + 1; it has no
padding byte, and the encoding of every record value is 164 bytes long and
is exactly the concatenation of the bytes of its members. -/
theorem sizeof_event_eq_width_sum (e : event) (hv : e.valid) :
    sizeof_event = 164 ∧
    event_members.map (fun m => m.type.size) = [4, 4, 4, 8, 16, 127, 1] ∧
    width_sum event_members = 4 + 4 + 4 + 8 + 16 + 127 + 1 ∧
    sizeof_event = width_sum event_members ∧
    padding_bytes packed_align event_members = 0 ∧
    (encode e).length = 164 ∧
    encode e = (event_members.map (field_bytes e)).flatten := by
  obtain ⟨_, _, _, _, h5, _, h7, _⟩ := hv
  refine ⟨by decide, by decide, by decide, by decide, by decide,
    encode_length e h5 h7, ?_⟩
  rw [encode_eq]
  simp [event_members, field_bytes, CType.size]

/-- Witness of C1 at the exit event of the spec's second scenario. -/
theorem sizeof_event_eq_width_sum_witness :
    exit_example.valid ∧ (encode exit_example).length = 164 ∧
    encode exit_example = (event_members.map (field_bytes exit_example)).flatten :=
  ⟨by decide,
   (sizeof_event_eq_width_sum exit_example (by decide)).2.2.2.2.2.1,
   (sizeof_event_eq_width_sum exit_example (by decide)).2.2.2.2.2.2⟩

/-- Claim C2: the members of `struct event` are laid out in declaration
order, each starting at the byte where the previous one ends: pid at 0
(4 bytes), ppid at 4 (4), exit_code at 8 (4), duration_ns at 12 (8), comm at
20 (16), filename at 36 (127), exit_event at 163 (1); every byte offset in
0..163 lies in exactly one member. -/
theorem event_layout_contiguous (i : Nat) (hi : i ≤ 163) :
    event_layout =
      [⟨.pid, 0, 4⟩, ⟨.ppid, 4, 4⟩, ⟨.exit_code, 8, 4⟩, ⟨.duration_ns, 12, 8⟩,
       ⟨.comm, 20, 16⟩, ⟨.filename, 36, 127⟩, ⟨.exit_event, 163, 1⟩] ∧
    event_layout.map Slot.name = event_members.map Member.name ∧
    contiguous_from 0 event_layout = true ∧
    (event_layout.filter (fun s => s.covers i)).length = 1 := by
  refine ⟨event_layout_eq, by decide, by decide, ?_⟩
  rw [event_layout_eq]
  interval_cases i <;> rfl

/-- Witness of C2 at byte 12, the first byte of `duration_ns`. -/
theorem event_layout_contiguous_witness :
    (12 : Nat) ≤ 163 ∧ (event_layout.filter (fun s => s.covers 12)).length = 1 :=
  ⟨by decide, (event_layout_contiguous 12 (by decide)).2.2.2⟩

/-! ## Round trip through the byte image -/

/-- Claim C3: for every record within the ranges of the member types,
decoding the encoding gives the record back, equal in every member; in
particular the exit event pid 1234, ppid 1, exit_code 0, duration_ns
2500000000, comm "bash", empty filename decodes with duration_ns
2500000000. -/
theorem decode_encode (e : event) (hv : e.valid) :
    decode (encode e) = e ∧
    (exit_example.valid ∧ decode (encode exit_example) = exit_example ∧
      (decode (encode exit_example)).duration_ns = 2500000000) := by
  have hx : exit_example.valid := by decide
  have hr := decode_encode_valid exit_example hx
  refine ⟨decode_encode_valid e hv, hx, hr, ?_⟩
  rw [hr]
  rfl

/-- Witness of C3 at a record with pid = 2^32 - 1, a `comm` of sixteen
letters without NUL and a full `filename`. -/
theorem decode_encode_witness :
    top_bit_example.valid ∧ decode (encode top_bit_example) = top_bit_example :=
  ⟨by decide, (decode_encode top_bit_example (by decide)).1⟩

/-- Claim C4: pid, ppid and exit_code are `u32` members of exactly 4
bytes, duration_ns is a `u64` member of exactly 8 bytes; the encoded width
of each does not depend on the value, and every value below 2^32 (2^64 for
duration_ns), top bit set or not, reads back as the same natural number. -/
theorem numeric_members_fixed_width (e : event) :
    (field_type .pid = some .u32 ∧ field_type .ppid = some .u32 ∧
      field_type .exit_code = some .u32 ∧ field_type .duration_ns = some .u64) ∧
    (field_size .pid = 4 ∧ field_size .ppid = 4 ∧ field_size .exit_code = 4 ∧
      field_size .duration_ns = 8) ∧
    ((field_slice (encode e) .pid).length = 4 ∧
      (field_slice (encode e) .ppid).length = 4 ∧
      (field_slice (encode e) .exit_code).length = 4 ∧
      (field_slice (encode e) .duration_ns).length = 8) ∧
    (e.pid < 2 ^ 32 → (decode (encode e)).pid = e.pid) ∧
    (e.ppid < 2 ^ 32 → (decode (encode e)).ppid = e.ppid) ∧
    (e.exit_code < 2 ^ 32 → (decode (encode e)).exit_code = e.exit_code) ∧
    (e.duration_ns < 2 ^ 64 → (decode (encode e)).duration_ns = e.duration_ns) := by
  refine ⟨by decide, by decide, ?_, ?_, ?_, ?_, ?_⟩
  · simp [slice_pid, slice_ppid, slice_exit_code, slice_duration_ns, le_bytes_length]
  · intro h
    show le_value (field_slice (encode e) .pid) = e.pid
    rw [slice_pid]
    exact le_value_le_bytes_of_lt 4 _ (by simpa using h)
  · intro h
    show le_value (field_slice (encode e) .ppid) = e.ppid
    rw [slice_ppid]
    exact le_value_le_bytes_of_lt 4 _ (by simpa using h)
  · intro h
    show le_value (field_slice (encode e) .exit_code) = e.exit_code
    rw [slice_exit_code]
    exact le_value_le_bytes_of_lt 4 _ (by simpa using h)
  · intro h
    show le_value (field_slice (encode e) .duration_ns) = e.duration_ns
    rw [slice_duration_ns]
    exact le_value_le_bytes_of_lt 8 _ (by simpa using h)

/-- Witness of C4: pid = 4294967295 and duration_ns = 2^64 - 1 read back
unchanged, and their encodings are 4 and 8 bytes of 255. -/
theorem numeric_members_fixed_width_witness :
    top_bit_example.pid < 2 ^ 32 ∧ top_bit_example.duration_ns < 2 ^ 64 ∧
    field_slice (encode top_bit_example) .pid = [255, 255, 255, 255] ∧
    (decode (encode top_bit_example)).pid = 4294967295 ∧
    (decode (encode top_bit_example)).duration_ns = 18446744073709551615 :=
  ⟨by decide, by decide, by decide,
   (numeric_members_fixed_width top_bit_example).2.2.2.1 (by decide),
   (numeric_members_fixed_width top_bit_example).2.2.2.2.2.2 (by decide)⟩

/-- Claim C5: TASK_COMM_LEN is 16 and MAX_FILENAME_LEN is 127; `comm` is
declared with capacity TASK_COMM_LEN and `filename` with capacity
MAX_FILENAME_LEN, and in the image of every record `comm` takes exactly 16
bytes and `filename` exactly 127, whatever they contain. -/
theorem string_capacities (e : event) (hv : e.valid) :
    TASK_COMM_LEN = 16 ∧ MAX_FILENAME_LEN = 127 ∧
    field_type .comm = some (.char_array TASK_COMM_LEN) ∧
    field_type .filename = some (.char_array MAX_FILENAME_LEN) ∧
    field_size .comm = 16 ∧ field_size .filename = 127 ∧
    (field_slice (encode e) .comm).length = 16 ∧
    (field_slice (encode e) .filename).length = 127 ∧
    (decode (encode e)).comm.length = 16 ∧
    (decode (encode e)).filename.length = 127 := by
  obtain ⟨_, _, _, _, h5, _, h7, _⟩ := hv
  have hc : e.comm.length = 16 := h5
  have hf : e.filename.length = 127 := h7
  refine ⟨rfl, rfl, by decide, by decide, by decide, by decide, ?_, ?_, ?_, ?_⟩
  · rw [slice_comm e hc, hc]
  · rw [slice_filename e hc hf, hf]
  · show (field_slice (encode e) .comm).length = 16
    rw [slice_comm e hc, hc]
  · show (field_slice (encode e) .filename).length = 127
    rw [slice_filename e hc hf, hf]

/-- Witness of C5 at the exit event, whose `comm` holds four characters and
whose `filename` is empty. -/
theorem string_capacities_witness :
    exit_example.valid ∧
    (field_slice (encode exit_example) .comm).length = 16 ∧
    (field_slice (encode exit_example) .filename).length = 127 :=
  ⟨by decide,
   (string_capacities exit_example (by decide)).2.2.2.2.2.2.1,
   (string_capacities exit_example (by decide)).2.2.2.2.2.2.2.1⟩

/-- Claim C6: storing a command name of 20 characters keeps its first 15
characters and a NUL terminator in the 16-byte `comm`; decoding the
encoded record yields that truncated buffer, whose visible string is the
first 15 characters, not the 20 characters of the original name. -/
theorem comm_truncation (e : event) (name : List Nat)
    (hlen : name.length = 20) (hnz : ∀ c ∈ name, c ≠ 0) :
    (decode (encode { e with comm := store_str TASK_COMM_LEN name })).comm
      = name.take 15 ++ [0] ∧
    c_string (decode (encode { e with comm := store_str TASK_COMM_LEN name })).comm
      = name.take 15 ∧
    (c_string (decode (encode { e with comm := store_str TASK_COMM_LEN name })).comm).length
      = 15 ∧
    (decode (encode { e with comm := store_str TASK_COMM_LEN name })).comm ≠ name := by
  have hs : store_str TASK_COMM_LEN name = name.take 15 ++ [0] :=
    store_str_long name (by omega)
  have hl : (name.take 15).length = 15 := by simp [List.length_take, hlen]
  have hd : (decode (encode { e with comm := store_str TASK_COMM_LEN name })).comm
      = name.take 15 ++ [0] := by
    show field_slice (encode { e with comm := store_str TASK_COMM_LEN name }) .comm = _
    rw [slice_comm _ (by simp [hs, hl])]
    exact hs
  have hz : ∀ c ∈ name.take 15, c ≠ 0 := fun c hc => hnz c (List.mem_of_mem_take hc)
  have hcs : c_string (name.take 15 ++ [0]) = name.take 15 := c_string_append_nul _ [] hz
  refine ⟨hd, ?_, ?_, ?_⟩
  · rw [hd, hcs]
  · rw [hd, hcs, hl]
  · rw [hd]
    intro h
    have := congrArg List.length h
    simp [hl, hlen] at this

/-- Witness of C6: the name `abcdefghijklmnopqrst` comes back as
`abcdefghijklmno` followed by NUL. -/
theorem comm_truncation_witness :
    long_name.length = 20 ∧ (∀ c ∈ long_name, c ≠ 0) ∧
    (decode (encode { exit_example with comm := store_str TASK_COMM_LEN long_name })).comm
      = [97, 98, 99, 100, 101, 102, 103, 104, 105, 106, 107, 108, 109, 110, 111, 0] :=
  ⟨by decide, by decide, (comm_truncation exit_example long_name (by decide) (by decide)).1⟩

/-- Claim C7: exit_code, duration_ns and filename are present in every
record whatever exit_event is: changing only exit_event leaves bytes 0..162
of the 164-byte encoding unchanged, sets byte 163 to the new discriminator,
and changes no other member's bytes. -/
theorem exit_event_frame (e : event) (hv : e.valid) (b : Bool) :
    (encode { e with exit_event := b }).length = 164 ∧
    (encode { e with exit_event := b }).take 163 = (encode e).take 163 ∧
    (encode { e with exit_event := b }).drop 163 = [bool_byte b] ∧
    (encode e).drop 163 = [bool_byte e.exit_event] ∧
    (b ≠ e.exit_event → encode { e with exit_event := b } ≠ encode e) ∧
    (∀ f : Field, f ≠ .exit_event →
      field_slice (encode { e with exit_event := b }) f = field_slice (encode e) f) ∧
    field_slice (encode { e with exit_event := b }) .exit_code = le_bytes 4 e.exit_code ∧
    field_slice (encode { e with exit_event := b }) .duration_ns = le_bytes 8 e.duration_ns ∧
    field_slice (encode { e with exit_event := b }) .filename = e.filename := by
  obtain ⟨_, _, _, _, h5, _, h7, _⟩ := hv
  have hc : e.comm.length = 16 := h5
  have hf : e.filename.length = 127 := h7
  have hbody : (le_bytes 4 e.pid ++ (le_bytes 4 e.ppid ++ (le_bytes 4 e.exit_code ++
      (le_bytes 8 e.duration_ns ++ (e.comm ++ e.filename))))).length = 163 := by
    simp [le_bytes_length, hc, hf]
  have hd1 : (encode { e with exit_event := b }).drop 163 = [bool_byte b] := by
    rw [encode_split]
    exact drop_len_append _ _ 163 hbody
  have hd2 : (encode e).drop 163 = [bool_byte e.exit_event] := by
    rw [encode_split]
    exact drop_len_append _ _ 163 hbody
  refine ⟨encode_length _ hc hf, ?_, hd1, hd2, ?_, ?_,
    slice_exit_code _, slice_duration_ns _, slice_filename _ hc hf⟩
  · rw [encode_split, encode_split e]
    rw [take_len_append _ _ 163 hbody]
    exact (take_len_append _ _ 163 hbody).symm
  · intro hne heq
    rw [heq, hd2] at hd1
    apply hne
    cases b <;> cases hx : e.exit_event <;> simp [hx, bool_byte] at hd1 ⊢
  · intro f hfne
    cases f
    · rw [slice_pid, slice_pid]
    · rw [slice_ppid, slice_ppid]
    · rw [slice_exit_code, slice_exit_code]
    · rw [slice_duration_ns, slice_duration_ns]
    · rw [slice_comm e hc, slice_comm { e with exit_event := b } hc]
    · rw [slice_filename e hc hf, slice_filename { e with exit_event := b } hc hf]
    · exact absurd rfl hfne

/-- Witness of C7: turning the exit event of the second scenario into a
start event only clears byte 163; the encoding changes, the bytes of
`filename` do not. -/
theorem exit_event_frame_witness :
    exit_example.valid ∧
    (encode { exit_example with exit_event := false }).take 163
      = (encode exit_example).take 163 ∧
    (encode { exit_example with exit_event := false }).drop 163 = [0] ∧
    (encode exit_example).drop 163 = [1] ∧
    encode { exit_example with exit_event := false } ≠ encode exit_example ∧
    field_slice (encode { exit_example with exit_event := false }) .filename
      = field_slice (encode exit_example) .filename :=
  ⟨by decide,
   (exit_event_frame exit_example (by decide) false).2.1,
   (exit_event_frame exit_example (by decide) false).2.2.1,
   (exit_event_frame exit_example (by decide) false).2.2.2.1,
   (exit_event_frame exit_example (by decide) false).2.2.2.2.1 (by decide),
   (exit_event_frame exit_example (by decide) false).2.2.2.2.2.1 .filename (by decide)⟩

/-- Claim C8: the `packed` attribute matters. Under natural alignment the
same members would put duration_ns at 16 instead of 12, exit_event at 167
instead of 163 and give a size of 168 instead of 164; the two layouts agree
on pid, ppid and exit_code and differ on every member from duration_ns
onward, and the packed offset 12 of duration_ns is not a multiple of 8. -/
theorem packed_attribute_material :
    natural_layout =
      [⟨.pid, 0, 4⟩, ⟨.ppid, 4, 4⟩, ⟨.exit_code, 8, 4⟩, ⟨.duration_ns, 16, 8⟩,
       ⟨.comm, 24, 16⟩, ⟨.filename, 40, 127⟩, ⟨.exit_event, 167, 1⟩] ∧
    (offset_in natural_layout .duration_ns = some 16 ∧
      offset_in event_layout .duration_ns = some 12) ∧
    (offset_in natural_layout .exit_event = some 167 ∧
      offset_in event_layout .exit_event = some 163) ∧
    (natural_sizeof_event = 168 ∧ sizeof_event = 164) ∧
    (offset_in natural_layout .pid = offset_in event_layout .pid ∧
      offset_in natural_layout .ppid = offset_in event_layout .ppid ∧
      offset_in natural_layout .exit_code = offset_in event_layout .exit_code) ∧
    (offset_in natural_layout .duration_ns ≠ offset_in event_layout .duration_ns ∧
      offset_in natural_layout .comm ≠ offset_in event_layout .comm ∧
      offset_in natural_layout .filename ≠ offset_in event_layout .filename ∧
      offset_in natural_layout .exit_event ≠ offset_in event_layout .exit_event) ∧
    (offsetof .duration_ns = 12 ∧ ¬ 8 ∣ offsetof .duration_ns) ∧
    padding_bytes CType.align event_members = 4 := by
  decide

end Bootstrap
